import Mathlib

/-!
Verification of the chrome-policy core of the terraform-provider-googleworkspace
repository: a shallow embedding of the policy value codec
(`validatePolicyFieldValueType`, `convertPolicyFieldValueType`), the schema field
map construction, additional-target-key expansion, the create/batch planning of
the org-unit and group chrome policy resources, and the eventual-consistency
poll loop of the group resource, together with theorems settling the spec
claims about them.

Modelling conventions:
* Go values decoded by `encoding/json` (`json.Unmarshal` into `interface{}`) are
  embedded as `GoValue`; a JSON number decodes to a Go `float64`, which we carry
  as an exact rational (`ℚ`).  A separate `float32V` constructor mirrors the Go
  `float32` reflect kind, which `json.Unmarshal` never produces but which the
  repository's unit tests pass directly to `validatePolicyFieldValueType`.
* Machine floating point is carried as exact rationals: the integrality check
  `fieldValue == float64(int(fieldValue.(float64)))` becomes `den = 1`, and
  `strconv.ParseFloat` is modelled on finite decimal syntax (hex floats,
  Inf/NaN and overflow-to-range-error are outside the claims and elided).
* The bounded retry wrapper `retryTimeDuration` around each remote call is
  elided: each wrapped call is modelled as a single observable event.
-/

/-- Embedding of a Go `interface{}` value as produced by `json.Unmarshal`
(bool, float64, string, `[]interface{}`, `map[string]interface{}`, nil),
plus `float32V` for the Go float32 reflect kind (constructible only outside
JSON decoding, e.g. by the repository's tests) and `int64V` for the Go
`int64` values produced by `strconv.ParseInt`. -/
inductive GoValue where
  | boolV (b : Bool)
  | float64V (q : ℚ)
  | float32V (q : ℚ)
  | strV (s : String)
  | arrV (xs : List GoValue)
  | mapV (kvs : List (String × GoValue))
  | int64V (i : Int)
  | nullV
deriving Repr

/-- Go `x == float64(int(x))` (resp. `float32`): the number has no fractional
part.  On the exact-rational carrier this is `den = 1`. -/
def ratIsIntegral (q : ℚ) : Bool := q.den == 1

/-- Embedding of `validatePolicyFieldValueType` (src/unnamed/part_000 lines
460-510): switch on the wire type string, checking the reflect kind of the
value.  Note the 32-bit integer family checks reflect kind `Float32`, exactly
as the source does. -/
def validatePolicyFieldValueType (fieldType : String) (fieldValue : GoValue) : Bool :=
  match fieldType with
  | "TYPE_BOOL" =>
      match fieldValue with
      | .boolV _ => true
      | _ => false
  | "TYPE_FLOAT" | "TYPE_DOUBLE" =>
      match fieldValue with
      | .float64V _ => true
      | _ => false
  | "TYPE_INT64" | "TYPE_FIXED64" | "TYPE_SFIXED64" | "TYPE_SINT64" | "TYPE_UINT64" =>
      match fieldValue with
      | .float64V q => ratIsIntegral q
      | _ => false
  | "TYPE_INT32" | "TYPE_FIXED32" | "TYPE_SFIXED32" | "TYPE_SINT32" | "TYPE_UINT32" =>
      match fieldValue with
      | .float32V q => ratIsIntegral q
      | _ => false
  | "TYPE_MESSAGE" =>
      match fieldValue with
      | .mapV _ => true
      | _ => false
  | _ =>
      -- TYPE_ENUM and TYPE_STRING fall through to the default: kind String.
      match fieldValue with
      | .strV _ => true
      | _ => false

/-- Error value mirroring Go `strconv.NumError`: the failing function name,
the original input string, and the wrapped reason. -/
structure NumError where
  fn : String
  num : String
  reason : String
deriving Repr, DecidableEq

/-- `strconv.ErrSyntax.Error()`. -/
def errSyntaxMsg : String := "invalid syntax"

/-- `strconv.ErrRange.Error()`. -/
def errRangeMsg : String := "value out of range"

/-- Rendering of `strconv.NumError.Error()`:
`"strconv." + fn + ": parsing " + Quote(num) + ": " + err`.  (`strconv.Quote`
escaping of non-printable characters is elided; claim inputs are plain.) -/
def numErrorString (e : NumError) : String :=
  "strconv." ++ e.fn ++ ": parsing \"" ++ e.num ++ "\": " ++ e.reason

/-- Embedding of `strconv.ParseBool`: the exact accepted token set. -/
def goParseBool (s : String) : Except NumError Bool :=
  match s with
  | "1" | "t" | "T" | "true" | "TRUE" | "True" => .ok true
  | "0" | "f" | "F" | "false" | "FALSE" | "False" => .ok false
  | _ => .error ⟨"ParseBool", s, errSyntaxMsg⟩

/-- Digits of a base-10 numeral, or none if empty or not all digits. -/
def digitsToNat? (cs : List Char) : Option Nat :=
  if cs.isEmpty then none
  else if cs.all (fun c => c.isDigit) then
    some (cs.foldl (fun acc c => acc * 10 + (c.toNat - '0'.toNat)) 0)
  else none

/-- Embedding of `strconv.ParseInt(s, 10, bitSize)`: optional sign, at least
one decimal digit, range check against the signed `bitSize`-bit bounds
(`ErrRange` when exceeded).  The Go function returns an `int64` for every
bit size. -/
def goParseInt (s : String) (bitSize : Nat) : Except NumError Int :=
  let cs := s.toList
  let (neg, body) :=
    match cs with
    | '+' :: rest => (false, rest)
    | '-' :: rest => (true, rest)
    | _ => (false, cs)
  match digitsToNat? body with
  | none => .error ⟨"ParseInt", s, errSyntaxMsg⟩
  | some n =>
      let v : Int := if neg then -(n : Int) else (n : Int)
      if v < -(2 ^ (bitSize - 1) : Int) ∨ (2 ^ (bitSize - 1) : Int) - 1 < v then
        .error ⟨"ParseInt", s, errRangeMsg⟩
      else
        .ok v

/-- Embedding of `strconv.ParseFloat(s, 64)` on finite decimal syntax:
optional sign, decimal digits with optional fraction part and optional decimal
exponent, valued exactly in `ℚ` (IEEE rounding, hex floats, Inf/NaN and
range overflow are elided; no claim exercises them). -/
def goParseFloat (s : String) : Except NumError ℚ :=
  let cs := s.toList
  let (neg, body) :=
    match cs with
    | '+' :: rest => (false, rest)
    | '-' :: rest => (true, rest)
    | _ => (false, cs)
  let (mant, expPart) :=
    match body.span (fun c => c ≠ 'e' ∧ c ≠ 'E') with
    | (m, []) => (m, none)
    | (m, _ :: e) => (m, some e)
  let (intPart, fracPart) :=
    match mant.span (fun c => c ≠ '.') with
    | (i, []) => (i, ([] : List Char))
    | (i, _ :: f) => (i, f)
  let digitsOk :=
    intPart.all (fun c => c.isDigit) ∧ fracPart.all (fun c => c.isDigit) ∧
      (intPart ≠ [] ∨ fracPart ≠ []) ∧ (mant.count '.' ≤ 1)
  let expVal : Option Int :=
    match expPart with
    | none => some 0
    | some ecs =>
        let (eneg, ebody) :=
          match ecs with
          | '+' :: rest => (false, rest)
          | '-' :: rest => (true, rest)
          | _ => (false, ecs)
        match digitsToNat? ebody with
        | none => none
        | some e => some (if eneg then -(e : Int) else (e : Int))
  match expVal with
  | none => .error ⟨"ParseFloat", s, errSyntaxMsg⟩
  | some e =>
      if digitsOk then
        let iv := (intPart.foldl (fun acc c => acc * 10 + (c.toNat - '0'.toNat)) 0 : Nat)
        let fv := (fracPart.foldl (fun acc c => acc * 10 + (c.toNat - '0'.toNat)) 0 : Nat)
        let m : Int := (iv * 10 ^ fracPart.length + fv : Nat)
        let m : Int := if neg then -m else m
        let q : ℚ :=
          if 0 ≤ e then mkRat (m * 10 ^ e.toNat) (10 ^ fracPart.length)
          else mkRat m (10 ^ fracPart.length * 10 ^ (-e).toNat)
        .ok q
      else .error ⟨"ParseFloat", s, errSyntaxMsg⟩

/-- Embedding of `convertPolicyFieldValueType` (src/unnamed/part_000 lines
513-560): a non-string value is returned unchanged; a string is parsed
according to the wire type (bool parse for BOOL, 64-bit float parse for
FLOAT/DOUBLE, base-10 integer parse with bit width 64 resp. 32 for the
integer families), and ENUM/MESSAGE/STRING and any other type fall through to
the identity. -/
def convertPolicyFieldValueType (fieldType : String) (fieldValue : GoValue) :
    Except NumError GoValue :=
  match fieldValue with
  | .strV s =>
      match fieldType with
      | "TYPE_BOOL" => (goParseBool s).map .boolV
      | "TYPE_FLOAT" | "TYPE_DOUBLE" => (goParseFloat s).map .float64V
      | "TYPE_INT64" | "TYPE_FIXED64" | "TYPE_SFIXED64" | "TYPE_SINT64" | "TYPE_UINT64" =>
          (goParseInt s 64).map .int64V
      | "TYPE_INT32" | "TYPE_FIXED32" | "TYPE_SFIXED32" | "TYPE_SINT32" | "TYPE_UINT32" =>
          (goParseInt s 32).map .int64V
      | _ => .ok (.strV s)
  | v => .ok v

/-- Embedding of `chromepolicy.Proto2FieldDescriptorProto` restricted to the
fields the repository reads: `Name`, `Type` (wire type string) and `Label`. -/
structure FieldDescriptor where
  name : String
  typ : String
  label : String
deriving Repr, DecidableEq

/-- Embedding of one entry of `schemaDef.Definition.MessageType`
(`Proto2DescriptorProto`), restricted to its `Field` slice. -/
structure MessageType where
  field : List FieldDescriptor
deriving Repr, DecidableEq

/-- Embedding of one entry of `schemaDef.AdditionalTargetKeyNames`
(`Key` and `KeyDescription`). -/
structure AdditionalTargetKeyName where
  key : String
  keyDescription : String
deriving Repr, DecidableEq

/-- Embedding of a fetched `GoogleChromePolicyVersionsV1PolicySchema` as the
repository reads it: the message types of `Definition` and the
`AdditionalTargetKeyNames` slice (`none` models a nil slice, the "schema does
not support additional target keys" case). -/
structure PolicySchemaDef where
  messageType : List MessageType
  additionalTargetKeyNames : Option (List AdditionalTargetKeyName)
deriving Repr, DecidableEq

/-- Go map assignment `m[k] = v`: replace the binding if the key is present,
otherwise add it.  (Go maps are unordered; only lookup is observable, so the
association-list order is irrelevant.) -/
def goMapInsert {α : Type} (m : List (String × α)) (k : String) (v : α) :
    List (String × α) :=
  match m with
  | [] => [(k, v)]
  | (k', v') :: rest =>
      if k' = k then (k, v) :: rest else (k', v') :: goMapInsert rest k v

/-- Go map lookup `m[k]`. -/
def goMapLookup {α : Type} (m : List (String × α)) (k : String) : Option α :=
  (m.find? (fun p => p.1 = k)).map (·.2)

/-- Embedding of the `schemaFieldMap` construction shared by
`validateChromePolicies` (src/unnamed/part_000 lines 366-371) and
`flattenChromePolicies` (lines 653-658): every nested field of every message
type is inserted into one flat map keyed by the leaf field name. -/
def buildSchemaFieldMap (messageType : List MessageType) :
    List (String × FieldDescriptor) :=
  messageType.foldl
    (fun m mt => mt.field.foldl (fun m f => goMapInsert m f.name f) m) []

/-- Embedding of `expandChromePoliciesAdditionalTargetKeys` (src/unnamed/
part_000 lines 608-619): fold the `(target_key, target_value)` bindings into a
Go map, so a later binding under the same key name overwrites an earlier one. -/
def expandChromePoliciesAdditionalTargetKeys (keys : List (String × String)) :
    List (String × String) :=
  keys.foldl (fun result kv => goMapInsert result kv.1 kv.2) []

/-- The validation errors `validateChromePolicies` can report (each corresponds
to one `diag.Diagnostic`/`diag.FromErr` return in src/unnamed/part_000 lines
344-457; `schemaNotFound` stands for a failed or empty schema fetch). -/
inductive ValErr where
  | schemaNotFound (schemaName : String)
  | unknownField (fieldName schemaName : String)
  | typeMismatch (fieldName : String) (value : GoValue)
  | typeMismatchElem (fieldName : String) (elem : GoValue)
  | unsupportedTargetKeys (schemaName : String)
  | unknownTargetKey (keyName schemaName : String)
  | missingTargetKeys (schemaName : String)
deriving Repr

/-- The element loop of the repeated-field branch (src/unnamed/part_000 lines
405-414): first element failing the scalar rule, if any. -/
def firstInvalidElem (typ : String) : List GoValue → Option GoValue
  | [] => none
  | x :: xs =>
      if validatePolicyFieldValueType typ x then firstInvalidElem typ xs
      else some x

/-- The per-field body of the validation loop (src/unnamed/part_000 lines
397-423): a `LABEL_REPEATED` field requires a sequence whose every element
satisfies the scalar rule (the error names the failing element); any other
field requires the value itself to satisfy the rule.  Sequence values are the
`[]interface{}` slices produced by `json.Unmarshal`, embedded as `arrV`. -/
def validatePolicyField (field : FieldDescriptor) (polVal : GoValue) : Option ValErr :=
  if field.label = "LABEL_REPEATED" then
    match polVal with
    | .arrV items =>
        (firstInvalidElem field.typ items).map (.typeMismatchElem field.name)
    | _ => some (.typeMismatch field.name polVal)
  else
    if validatePolicyFieldValueType field.typ polVal then none
    else some (.typeMismatch field.name polVal)

/-- One entry of the resource's `policies` list: the schema name and the
decoded `schema_values` map.  (The Terraform layer stores each value as a
JSON-encoded string; `StringIsJSON` guarantees decoding succeeds, so the
embedding carries the decoded `GoValue` directly.) -/
structure PolicyInput where
  schemaName : String
  schemaValues : List (String × GoValue)
deriving Repr

/-- The field loop of `validateChromePolicies` (src/unnamed/part_000 lines
375-424): fields are checked in map order and the first error aborts. -/
def validatePolicyFields (schemaName : String)
    (fieldMap : List (String × FieldDescriptor)) :
    List (String × GoValue) → Option ValErr
  | [] => none
  | (polKey, polVal) :: rest =>
      match goMapLookup fieldMap polKey with
      | none => some (.unknownField polKey schemaName)
      | some field =>
          match validatePolicyField field polVal with
          | some e => some e
          | none => validatePolicyFields schemaName fieldMap rest

/-- The additional-target-key checks of `validateChromePolicies`
(src/unnamed/part_000 lines 426-453): when keys were supplied the schema must
declare every supplied key name; when none were supplied the schema must not
require any. -/
def validateAdditionalTargetKeys (schemaName : String)
    (atk : List (String × String)) (schemaDef : PolicySchemaDef) : Option ValErr :=
  if atk.isEmpty then
    match schemaDef.additionalTargetKeyNames with
    | none => none
    | some _ => some (.missingTargetKeys schemaName)
  else
    match schemaDef.additionalTargetKeyNames with
    | none => some (.unsupportedTargetKeys schemaName)
    | some names =>
        let declared := names.map (·.key)
        let supplied := expandChromePoliciesAdditionalTargetKeys atk
        match supplied.find? (fun kv => !(declared.contains kv.1)) with
        | some kv => some (.unknownTargetKey kv.1 schemaName)
        | none => none

/-- Embedding of `GoogleChromePolicyVersionsV1PolicyTargetKey`: the target
resource URI and the additional-target-key map. -/
structure PolicyTargetKey where
  targetResource : String
  additionalTargetKeys : List (String × String)
deriving Repr

/-- Embedding of a modify request (`ModifyOrgUnitPolicyRequest` /
`ModifyGroupPolicyRequest`): the target key and the policy value it writes.
(The `UpdateMask` string is derived from the value's field names and carries
no extra information for the claims.) -/
structure ModifyRequest where
  policyTargetKey : PolicyTargetKey
  policy : PolicyInput
deriving Repr

/-- The remote calls the embedded operations issue, in order.  `schemaGet` is
the (read-only) policy-schema fetch; the `batch*` events are the mutating
dispatches, one event per `BatchModify` network call. -/
inductive Event where
  | schemaGet (schemaName : String)
  | groupBatchModify (requests : List ModifyRequest)
  | orgUnitBatchModify (requests : List ModifyRequest)
deriving Repr

/-- Whether an event is a mutating batch dispatch (anything but a schema
fetch). -/
def Event.isMutation : Event → Bool
  | .schemaGet _ => false
  | _ => true

/-- Embedding of `validateChromePolicies` (src/unnamed/part_000 lines
329-457): for each policy, fetch its schema (one `schemaGet` event; `env`
models the remote schema service, `none` covering both a fetch error and an
empty definition), build the flattened field map, check every supplied field,
then check the additional target keys; the first error aborts the whole
validation.  Returns the events issued so far and the error, if any. -/
def validateChromePolicies (env : String → Option PolicySchemaDef)
    (atk : List (String × String)) :
    List PolicyInput → List Event × Option ValErr
  | [] => ([], none)
  | p :: rest =>
      match env p.schemaName with
      | none => ([.schemaGet p.schemaName], some (.schemaNotFound p.schemaName))
      | some schemaDef =>
          let fieldMap := buildSchemaFieldMap schemaDef.messageType
          match validatePolicyFields p.schemaName fieldMap p.schemaValues with
          | some e => ([.schemaGet p.schemaName], some e)
          | none =>
              match validateAdditionalTargetKeys p.schemaName atk schemaDef with
              | some e => ([.schemaGet p.schemaName], some e)
              | none =>
                  let r := validateChromePolicies env atk rest
                  (.schemaGet p.schemaName :: r.1, r.2)

/-- `strings.TrimPrefix(s, "id:")`. -/
def trimIdColon (s : String) : String :=
  if s.startsWith "id:" then s.drop 3 else s

/-- The `d.GetOk("additional_target_keys")` guard: a Terraform `TypeList`
attribute is "ok" exactly when it is non-empty, and only then is the expanded
map attached to the target key. -/
def targetKeyAdditionalKeys (atk : List (String × String)) : List (String × String) :=
  if atk.isEmpty then [] else expandChromePoliciesAdditionalTargetKeys atk

/-- The org-unit dispatch section of `resourceChromePolicyCreate`
(src/unnamed/part_000 lines 123-144): one request per policy, all sent in a
single `Orgunits.BatchModify` call. -/
def planOrgUnitBatch (targetID : String) (atk : List (String × String))
    (policies : List PolicyInput) : List ModifyRequest :=
  policies.map (fun p =>
    ⟨⟨"orgunits/" ++ targetID, targetKeyAdditionalKeys atk⟩, p⟩)

/-- Embedding of `resourceChromePolicyCreate` (src/unnamed/part_000 lines
86-153) up to the dispatch: validate (emitting schema fetches), then — only
if validation passed — issue the single org-unit batch-modify call.  Returns
the event trace and whether the dispatch phase was reached. -/
def resourceChromePolicyCreate (env : String → Option PolicySchemaDef)
    (orgUnitId : String) (atk : List (String × String))
    (policies : List PolicyInput) : List Event × Bool :=
  let targetID := trimIdColon orgUnitId
  match validateChromePolicies env atk policies with
  | (tr, some _) => (tr, false)
  | (tr, none) =>
      (tr ++ [.orgUnitBatchModify (planOrgUnitBatch targetID atk policies)], true)

/-- The `keyGroups` construction of the group create (src/internal/provider/
resource_chrome_group_policy.go lines 504-514): bindings grouped by key name,
each group keeping its bindings in input order.  (Go map iteration order is
unspecified; the embedding lists groups in first-occurrence order, which fixes
one of the admissible orders and leaves counts and contents unchanged.) -/
def keyGroupsInsert (acc : List (String × List (String × String)))
    (kv : String × String) : List (String × List (String × String)) :=
  match acc with
  | [] => [(kv.1, [kv])]
  | (n, l) :: rest =>
      if n = kv.1 then (n, l ++ [kv]) :: rest
      else (n, l) :: keyGroupsInsert rest kv

def keyGroupsOf (atk : List (String × String)) :
    List (String × List (String × String)) :=
  atk.foldl (fun acc kv => keyGroupsInsert acc kv) []

/-- The group dispatch section of `resourceChromeGroupPolicyCreate`
(src/internal/provider/resource_chrome_group_policy.go lines 460-567), as the
list of batch-modify calls it issues:
* with no additional target keys, one call per policy, each carrying exactly
  that one request (lines 463-498);
* with additional target keys, for every binding of every key-name group one
  call carrying one request per policy, all targeted at that single
  `(key, value)` pair (lines 499-567). -/
def planGroupBatches (targetID : String) (atk : List (String × String))
    (policies : List PolicyInput) : List (List ModifyRequest) :=
  if atk.isEmpty then
    policies.map (fun p => [⟨⟨"groups/" ++ targetID, []⟩, p⟩])
  else
    (keyGroupsOf atk).flatMap (fun g =>
      g.2.map (fun kv =>
        policies.map (fun p => ⟨⟨"groups/" ++ targetID, [kv]⟩, p⟩)))

/-- Embedding of `resourceChromeGroupPolicyCreate` (src/internal/provider/
resource_chrome_group_policy.go lines 423-573) up to the dispatch: validate
(emitting schema fetches), then — only if validation passed — issue the
planned group batch-modify calls. -/
def resourceChromeGroupPolicyCreate (env : String → Option PolicySchemaDef)
    (groupId : String) (atk : List (String × String))
    (policies : List PolicyInput) : List Event × Bool :=
  match validateChromePolicies env atk policies with
  | (tr, some _) => (tr, false)
  | (tr, none) =>
      (tr ++ (planGroupBatches groupId atk policies).map .groupBatchModify, true)

/-- The per-field conversion step of `flattenChromePolicies`
(src/unnamed/part_000 lines 684-687): convert the raw value for the named
field; a parse failure becomes the diagnostic produced by `diag.FromErr(err)`,
whose message is exactly `err.Error()` of the `strconv.NumError`. -/
def flattenConvertField (fieldName : String) (fieldType : String)
    (rawValue : GoValue) : Except String GoValue :=
  match convertPolicyFieldValueType fieldType rawValue with
  | .error e =>
      -- fieldName is received by the caller but never placed into the error
      .error (numErrorString e)
  | .ok v => .ok v

/-- Substring test (used to state what an error message does and does not
carry). -/
def strContainsSub (hay needle : String) : Bool :=
  let h := hay.toList
  let n := needle.toList
  (List.range (h.length + 1)).any (fun i => n.isPrefixOf (h.drop i))

/-- One observation of a poll tick of the consistency wait in
`resourceGroupCreate` / `resourceGroupUpdate` (src/internal/provider/
resource_group.go lines 169-193 and 361-382): the conditional read reports
"not modified", "not found", or a representation with a (possibly new) etag.
(Other errors abort the wait and are outside claim C8.) -/
inductive PollObs where
  | notModified
  | notFound
  | newEtag (etag : String)
deriving Repr, DecidableEq

/-- The poller's state, mirroring the `consistencyCheck` value used by
`resource_group.go` (fields `lastEtag` and `currConsistent`). -/
structure ConsistencyCheck where
  lastEtag : String
  currConsistent : Nat
deriving Repr, DecidableEq

/-- Modelled from the spec: `consistencyCheck.handleNewEtag` is declared
outside src/ (only its callers appear there).  Per spec 4.4, a response with
an etag different from the baseline stores the new etag as the baseline and
does not count as stable evidence: the stable counter restarts, so convergence
requires the required number of consecutive stable ticks *following the last
etag change*. -/
def handleNewEtag (cc : ConsistencyCheck) (etag : String) : ConsistencyCheck :=
  { lastEtag := etag, currConsistent := 0 }

/-- One poll tick of the consistency wait (src/internal/provider/
resource_group.go lines 180-190): "not modified" increments `currConsistent`,
"not found" resets it to 0, and a new etag is handed to `handleNewEtag`. -/
def ccStep (cc : ConsistencyCheck) (o : PollObs) : ConsistencyCheck :=
  match o with
  | .notModified => { cc with currConsistent := cc.currConsistent + 1 }
  | .notFound => { cc with currConsistent := 0 }
  | .newEtag e => handleNewEtag cc e

/-- Modelled from the spec: `consistencyCheck.reachedConsistency` is declared
outside src/ (only its callers appear there).  Per spec 4.4, the poller has
converged once the stable count has reached the required count (the number of
mutating calls issued, `numInserts` at the call sites). -/
def reachedConsistency (cc : ConsistencyCheck) (required : Nat) : Bool :=
  required ≤ cc.currConsistent

/-- Outcome of one consistency wait. -/
inductive PollResult where
  | Converged
  | TimedOut
deriving Repr, DecidableEq

/-- The retry loop of the consistency wait (src/internal/provider/
resource_group.go lines 173-193): each tick first checks
`reachedConsistency` and stops successfully if it holds, otherwise consumes
the next observation; the deadline (end of the observation list) yields
`TimedOut`. -/
def runPoll (required : Nat) (cc : ConsistencyCheck) : List PollObs → PollResult
  | [] => if reachedConsistency cc required then .Converged else .TimedOut
  | o :: rest =>
      if reachedConsistency cc required then .Converged
      else runPoll required (ccStep cc o) rest

/-- The poller's initial state: `stableCount = 0`, `lastETag = ""`. -/
def initialCC : ConsistencyCheck := ⟨"", 0⟩

/-- A concrete schema environment: one schema with a single STRING field and
no additional target keys. -/
def envSimple : String → Option PolicySchemaDef := fun n =>
  if n = "chrome.users.TestSchema" then
    some ⟨[⟨[⟨"goodField", "TYPE_STRING", "LABEL_OPTIONAL"⟩]⟩], none⟩
  else none

/-- A policy input naming a field absent from `envSimple`'s schema. -/
def polUnknownField : List PolicyInput :=
  [⟨"chrome.users.TestSchema", [("badField", .strV "x")]⟩]

/-- A schema environment for the spec's scenario A schema
(`chrome.users.MaxConnectionsPerProxy`, one INT64 field). -/
def envMaxConn : String → Option PolicySchemaDef := fun n =>
  if n = "chrome.users.MaxConnectionsPerProxy" then
    some ⟨[⟨[⟨"maxConnectionsPerProxy", "TYPE_INT64", "LABEL_OPTIONAL"⟩]⟩], none⟩
  else none

/-- A valid assignment for `envMaxConn`: the JSON number 33 on the INT64
field. -/
def polMaxConn : List PolicyInput :=
  [⟨"chrome.users.MaxConnectionsPerProxy",
    [("maxConnectionsPerProxy", .float64V 33)]⟩]

/-- The stable-count component of a fold of poll ticks: each "not modified"
adds one, everything else resets to zero. -/
def trailCount (c : Nat) (l : List PollObs) : Nat :=
  l.foldl (fun acc o => match o with | .notModified => acc + 1 | _ => 0) c

example : validatePolicyFieldValueType "TYPE_BOOL" (.boolV true) = true := rfl
example : validatePolicyFieldValueType "TYPE_INT64" (.float64V 10) = true := rfl
example : validatePolicyFieldValueType "TYPE_INT64" (.float64V (mkRat 21 2)) = false := rfl
example : validatePolicyFieldValueType "TYPE_INT32" (.float64V 33) = false := rfl
example : validatePolicyFieldValueType "TYPE_UINT32" (.float32V 3) = true := rfl
example : goParseBool "true" = .ok true := rfl
example : goParseInt "42" 64 = .ok 42 := rfl
example : goParseInt "4.2" 64 = .error ⟨"ParseInt", "4.2", "invalid syntax"⟩ := rfl
example : goParseInt "2147483648" 32 = .error ⟨"ParseInt", "2147483648", "value out of range"⟩ := rfl
example : goParseInt "2147483648" 64 = .ok 2147483648 := rfl
example : goParseFloat "1.25" = .ok (mkRat 5 4) := rfl
example : convertPolicyFieldValueType "TYPE_INT64" (.strV "42") = .ok (.int64V 42) := rfl

section MapLemmas

variable {α β : Type}

theorem goMapLookup_cons (pk : String) (pv : α) (rest : List (String × α))
    (k : String) :
    goMapLookup ((pk, pv) :: rest) k =
      if pk = k then some pv else goMapLookup rest k := by
  by_cases h : pk = k <;> simp [goMapLookup, List.find?, h]

theorem goMapLookup_goMapInsert (m : List (String × α)) (k : String) (v : α)
    (k' : String) :
    goMapLookup (goMapInsert m k v) k' =
      if k = k' then some v else goMapLookup m k' := by
  induction m with
  | nil =>
      simp [goMapInsert, goMapLookup_cons, goMapLookup]
  | cons p rest ih =>
      obtain ⟨pk, pv⟩ := p
      by_cases hpk : pk = k
      · subst hpk
        by_cases h : pk = k' <;> simp [goMapInsert, goMapLookup_cons, h]
      · by_cases h : pk = k'
        · subst h
          have hk : ¬ k = pk := fun hh => hpk hh.symm
          simp [goMapInsert, hpk, goMapLookup_cons, hk, ih]
        · simp [goMapInsert, hpk, goMapLookup_cons, h, ih]

theorem goMapLookup_foldl_insert (key : β → String) (val : β → α)
    (l : List β) (m0 : List (String × α)) (k : String) :
    goMapLookup (l.foldl (fun m x => goMapInsert m (key x) (val x)) m0) k =
      ((l.reverse.find? (fun x => key x == k)).map val).or (goMapLookup m0 k) := by
  induction l generalizing m0 with
  | nil => simp
  | cons x rest ih =>
      simp only [List.foldl_cons, List.reverse_cons]
      rw [ih, List.find?_append]
      rcases h : rest.reverse.find? (fun x => key x == k) with _ | y
      · simp only [h, Option.map_none, Option.none_or]
        rw [goMapLookup_goMapInsert]
        by_cases hk : key x = k
        · simp [List.find?, hk]
        · have hb : (key x == k) = false := by simp [hk]
          simp [List.find?, hk, hb]
      · simp [h]

theorem keys_goMapInsert (m : List (String × α)) (k : String) (v : α) :
    (goMapInsert m k v).map Prod.fst =
      if k ∈ m.map Prod.fst then m.map Prod.fst else m.map Prod.fst ++ [k] := by
  induction m with
  | nil => simp [goMapInsert]
  | cons p rest ih =>
      obtain ⟨pk, pv⟩ := p
      by_cases hpk : pk = k
      · subst hpk
        simp [goMapInsert]
      · have : ¬ k = pk := fun hh => hpk (hh ▸ rfl)
        by_cases hmem : k ∈ rest.map Prod.fst <;>
          simp [goMapInsert, hpk, this, hmem, ih]

theorem nodup_keys_goMapInsert (m : List (String × α)) (k : String) (v : α)
    (h : (m.map Prod.fst).Nodup) : ((goMapInsert m k v).map Prod.fst).Nodup := by
  rw [keys_goMapInsert]
  by_cases hmem : k ∈ m.map Prod.fst
  · simpa [hmem]
  · simpa [hmem, List.nodup_append] using h

theorem mem_keys_goMapInsert (m : List (String × α)) (k : String) (v : α)
    (k' : String) :
    k' ∈ (goMapInsert m k v).map Prod.fst ↔ k' ∈ m.map Prod.fst ∨ k' = k := by
  rw [keys_goMapInsert]
  by_cases hmem : k ∈ m.map Prod.fst
  · simp only [if_pos hmem]
    constructor
    · exact fun h => Or.inl h
    · rintro (h | rfl)
      · exact h
      · exact hmem
  · simp [if_neg hmem]

theorem nodup_keys_foldl_insert (key : β → String) (val : β → α)
    (l : List β) (m0 : List (String × α)) (h : (m0.map Prod.fst).Nodup) :
    ((l.foldl (fun m x => goMapInsert m (key x) (val x)) m0).map Prod.fst).Nodup := by
  induction l generalizing m0 with
  | nil => simpa
  | cons x rest ih =>
      exact ih _ (nodup_keys_goMapInsert _ _ _ h)

theorem mem_keys_foldl_insert (key : β → String) (val : β → α)
    (l : List β) (m0 : List (String × α)) (k : String) :
    k ∈ ((l.foldl (fun m x => goMapInsert m (key x) (val x)) m0).map Prod.fst) ↔
      k ∈ m0.map Prod.fst ∨ k ∈ l.map key := by
  induction l generalizing m0 with
  | nil => simp
  | cons x rest ih =>
      simp only [List.foldl_cons, List.map_cons, List.mem_cons]
      rw [ih, mem_keys_goMapInsert]
      tauto

end MapLemmas

/-- C10: expanding the `additional_target_keys` list keeps, for each key name,
only the last binding: the lookup of the resulting map equals the last
occurrence of the name in the list, the map's key set is exactly the set of
distinct supplied names, and no name appears twice. -/
theorem expandAdditionalTargetKeys_lastWins (keys : List (String × String)) :
    (∀ k : String,
        goMapLookup (expandChromePoliciesAdditionalTargetKeys keys) k =
          (keys.reverse.find? (fun kv => kv.1 == k)).map Prod.snd) ∧
    ((expandChromePoliciesAdditionalTargetKeys keys).map Prod.fst).Nodup ∧
    (∀ k : String,
        k ∈ (expandChromePoliciesAdditionalTargetKeys keys).map Prod.fst ↔
          k ∈ keys.map Prod.fst) := by
  refine ⟨fun k => ?_, ?_, fun k => ?_⟩
  · have := goMapLookup_foldl_insert Prod.fst Prod.snd keys [] k
    simpa [expandChromePoliciesAdditionalTargetKeys, goMapLookup] using this
  · exact nodup_keys_foldl_insert Prod.fst Prod.snd keys [] (by simp)
  · have := mem_keys_foldl_insert Prod.fst Prod.snd keys [] k
    simpa [expandChromePoliciesAdditionalTargetKeys] using this

/-- C4: evaluation of `validatePolicyFieldValueType` at the divergence point.
A JSON number always decodes to a Go `float64`, yet the 32-bit integer branch
(src/unnamed/part_000 lines 484-497) checks reflect kind `Float32` — a kind
`json.Unmarshal` can never produce — so an integral JSON number supplied for
any INT32-family field is rejected, contradicting the documented rule (and
the branch's own comment, which mirrors the 64-bit branch); the 64-bit family
accepts the same value, and only a Go `float32` (unreachable from JSON input)
is accepted by the 32-bit family. -/
theorem validateInt32FamilyRejectsIntegralJsonNumber :
    validatePolicyFieldValueType "TYPE_INT32" (.float64V 33) = false ∧
    validatePolicyFieldValueType "TYPE_UINT32" (.float64V 33) = false ∧
    validatePolicyFieldValueType "TYPE_FIXED32" (.float64V 33) = false ∧
    validatePolicyFieldValueType "TYPE_SFIXED32" (.float64V 33) = false ∧
    validatePolicyFieldValueType "TYPE_SINT32" (.float64V 33) = false ∧
    validatePolicyFieldValueType "TYPE_INT64" (.float64V 33) = true ∧
    validatePolicyFieldValueType "TYPE_INT32" (.float32V 33) = true :=
  ⟨rfl, rfl, rfl, rfl, rfl, rfl, rfl⟩

theorem firstInvalidElem_eq_none_iff (typ : String) (xs : List GoValue) :
    firstInvalidElem typ xs = none ↔
      ∀ x ∈ xs, validatePolicyFieldValueType typ x = true := by
  induction xs with
  | nil => simp [firstInvalidElem]
  | cons x rest ih =>
      by_cases h : validatePolicyFieldValueType typ x <;>
        simp [firstInvalidElem, h, ih]

theorem firstInvalidElem_append (typ : String) (pre post : List GoValue)
    (x : GoValue) (hpre : ∀ y ∈ pre, validatePolicyFieldValueType typ y = true)
    (hx : validatePolicyFieldValueType typ x = false) :
    firstInvalidElem typ (pre ++ x :: post) = some x := by
  induction pre with
  | nil => simp [firstInvalidElem, hx]
  | cons y rest ih =>
      have hy := hpre y (by simp)
      simp only [List.cons_append, firstInvalidElem, hy, if_true]
      exact ih (fun z hz => hpre z (by simp [hz]))

/-- C6: for a descriptor marked `LABEL_REPEATED`, validation accepts a value
iff it is a (JSON-decoded) sequence whose every element satisfies the scalar
rule for the wire type; a sequence whose first offending element is `x` is
rejected with an error naming exactly `x`; and every non-sequence value is
rejected. -/
theorem repeatedFieldValidation (field : FieldDescriptor)
    (hrep : field.label = "LABEL_REPEATED") :
    (∀ v : GoValue,
        validatePolicyField field v = none ↔
          ∃ xs, v = .arrV xs ∧
            ∀ x ∈ xs, validatePolicyFieldValueType field.typ x = true) ∧
    (∀ (pre post : List GoValue) (x : GoValue),
        (∀ y ∈ pre, validatePolicyFieldValueType field.typ y = true) →
        validatePolicyFieldValueType field.typ x = false →
        validatePolicyField field (.arrV (pre ++ x :: post)) =
          some (.typeMismatchElem field.name x)) ∧
    (∀ v : GoValue, (∀ xs, v ≠ .arrV xs) →
        validatePolicyField field v = some (.typeMismatch field.name v)) := by
  refine ⟨fun v => ?_, fun pre post x hpre hx => ?_, fun v hv => ?_⟩
  · cases v <;> simp [validatePolicyField, hrep, firstInvalidElem_eq_none_iff]
  · simp [validatePolicyField, hrep,
      firstInvalidElem_append field.typ pre post x hpre hx]
  · cases v <;> simp [validatePolicyField, hrep] <;>
      exact absurd rfl (hv _)

/-- Witness for C6 at a concrete repeated STRING field: a well-typed array is
accepted, an array with one numeric element is rejected naming that element,
and a bare string (non-sequence) is rejected. -/
theorem repeatedFieldValidation_witness :
    validatePolicyField ⟨"items", "TYPE_STRING", "LABEL_REPEATED"⟩
        (.arrV [.strV "a", .strV "b"]) = none ∧
    validatePolicyField ⟨"items", "TYPE_STRING", "LABEL_REPEATED"⟩
        (.arrV [.strV "a", .float64V 3]) =
      some (.typeMismatchElem "items" (.float64V 3)) ∧
    validatePolicyField ⟨"items", "TYPE_STRING", "LABEL_REPEATED"⟩
        (.strV "a") = some (.typeMismatch "items" (.strV "a")) := by
  obtain ⟨h1, h2, h3⟩ :=
    repeatedFieldValidation ⟨"items", "TYPE_STRING", "LABEL_REPEATED"⟩ rfl
  refine ⟨(h1 _).mpr ⟨[.strV "a", .strV "b"], rfl, by decide⟩, ?_,
    h3 _ (fun xs h => by cases h)⟩
  have := h2 [.strV "a"] [] (.float64V 3) (by decide) rfl
  simpa using this

/-- C5 counterexample: the conversion error produced for the malformed string
`"4.2"` on an INT64 field is the bare `strconv.NumError` rendering — it
carries the original string but *not* the field name, because
`convertPolicyFieldValueType` never receives the field name and
`flattenChromePolicies` wraps the error with `diag.FromErr` unchanged. -/
theorem conversionErrorLacksFieldName :
    flattenConvertField "maxConnectionsPerProxy" "TYPE_INT64" (.strV "4.2") =
      .error "strconv.ParseInt: parsing \"4.2\": invalid syntax" ∧
    strContainsSub "strconv.ParseInt: parsing \"4.2\": invalid syntax"
        "maxConnectionsPerProxy" = false ∧
    strContainsSub "strconv.ParseInt: parsing \"4.2\": invalid syntax"
        "4.2" = true :=
  ⟨rfl, by decide, by decide⟩

/-- C5 (amended): conversion returns every non-string input unchanged; a
string is parsed per the wire type (bool parse for BOOL, float parse for
FLOAT/DOUBLE, base-10 integer parse with bit width 64 resp. 32 for the
integer families, identity for STRING/ENUM/MESSAGE): `"42"` on INT64 becomes
the 64-bit integer 42, `"true"` on BOOL becomes boolean true, and the
malformed `"4.2"` on INT64 yields a conversion error carrying the original
string (though not the field name).  The differing bit widths are visible at
`2^31`, which parses on the 64-bit family and is out of range on the 32-bit
family. -/
theorem convertPolicyFieldValueType_spec :
    (∀ (ft : String) (v : GoValue), (∀ s, v ≠ .strV s) →
        convertPolicyFieldValueType ft v = .ok v) ∧
    convertPolicyFieldValueType "TYPE_INT64" (.strV "42") = .ok (.int64V 42) ∧
    convertPolicyFieldValueType "TYPE_BOOL" (.strV "true") = .ok (.boolV true) ∧
    convertPolicyFieldValueType "TYPE_INT64" (.strV "4.2") =
      .error ⟨"ParseInt", "4.2", "invalid syntax"⟩ ∧
    (∀ s : String,
        convertPolicyFieldValueType "TYPE_STRING" (.strV s) = .ok (.strV s) ∧
        convertPolicyFieldValueType "TYPE_ENUM" (.strV s) = .ok (.strV s) ∧
        convertPolicyFieldValueType "TYPE_MESSAGE" (.strV s) = .ok (.strV s)) ∧
    convertPolicyFieldValueType "TYPE_DOUBLE" (.strV "1.25") =
      .ok (.float64V (mkRat 5 4)) ∧
    convertPolicyFieldValueType "TYPE_INT64" (.strV "2147483648") =
      .ok (.int64V 2147483648) ∧
    convertPolicyFieldValueType "TYPE_INT32" (.strV "2147483648") =
      .error ⟨"ParseInt", "2147483648", "value out of range"⟩ := by
  refine ⟨fun ft v hv => ?_, rfl, rfl, rfl, fun s => ⟨rfl, rfl, rfl⟩, rfl, rfl, rfl⟩
  cases v <;> first | rfl | exact absurd rfl (hv _)

/-- Witness for C5's quantified conjunct at concrete inputs: a non-string
(boolean) value passes through unchanged. -/
theorem convertPolicyFieldValueType_spec_witness :
    convertPolicyFieldValueType "TYPE_INT64" (.boolV true) = .ok (.boolV true) :=
  (convertPolicyFieldValueType_spec).1 "TYPE_INT64" (.boolV true)
    (fun s h => by cases h)

/-- C9: the flattened per-schema field map is keyed by leaf field name and is
last-write-wins: looking up a name yields exactly the descriptor of the
*last* field with that name in the nested traversal order (message types in
order, each one's fields in order), so a later same-named nested field
silently overwrites an earlier one.  This single construction is the one used
both by validation (`validateChromePolicies`) and by read-back flattening
(`flattenChromePolicies`). -/
theorem buildSchemaFieldMap_lastWins (messageType : List MessageType)
    (name : String) :
    goMapLookup (buildSchemaFieldMap messageType) name =
      (messageType.flatMap MessageType.field).reverse.find?
        (fun f => f.name == name) := by
  suffices h : ∀ (mts : List MessageType) (m0 : List (String × FieldDescriptor)),
      goMapLookup
          (mts.foldl (fun m mt => mt.field.foldl (fun m f => goMapInsert m f.name f) m) m0)
          name =
        ((mts.flatMap MessageType.field).reverse.find? (fun f => f.name == name)).or
          (goMapLookup m0 name) by
    have := h messageType []
    simpa [buildSchemaFieldMap, goMapLookup] using this
  intro mts
  induction mts with
  | nil => simp
  | cons mt rest ih =>
      intro m0
      simp only [List.foldl_cons, List.flatMap_cons, List.reverse_append,
        List.find?_append]
      rw [ih]
      have hfield := goMapLookup_foldl_insert FieldDescriptor.name id mt.field m0 name
      simp only [id_eq, Option.map_id, id] at hfield
      rw [hfield, Option.or_assoc]

theorem flatMap_snd_keyGroupsInsert (acc : List (String × List (String × String)))
    (kv : String × String) :
    ((keyGroupsInsert acc kv).flatMap Prod.snd).Perm
      ((acc.flatMap Prod.snd) ++ [kv]) := by
  induction acc with
  | nil => simp [keyGroupsInsert]
  | cons g rest ih =>
      obtain ⟨n, l⟩ := g
      by_cases h : n = kv.1
      · simp only [keyGroupsInsert, if_pos h, List.flatMap_cons, List.append_assoc]
        exact List.perm_append_comm.append_left l
      · simp only [keyGroupsInsert, if_neg h, List.flatMap_cons, List.append_assoc]
        exact ih.append_left l

theorem flatMap_snd_keyGroupsOf (atk : List (String × String)) :
    ((keyGroupsOf atk).flatMap Prod.snd).Perm atk := by
  suffices h : ∀ (l : List (String × String))
      (acc : List (String × List (String × String))),
      ((l.foldl (fun acc kv => keyGroupsInsert acc kv) acc).flatMap Prod.snd).Perm
        ((acc.flatMap Prod.snd) ++ l) by
    simpa using h atk []
  intro l
  induction l with
  | nil => simp
  | cons kv rest ih =>
      intro acc
      simp only [List.foldl_cons]
      refine (ih (keyGroupsInsert acc kv)).trans ?_
      have h1 := (flatMap_snd_keyGroupsInsert acc kv).append_right rest
      refine h1.trans ?_
      simp [List.append_assoc]

theorem planGroupBatches_withKeys_eq (targetID : String)
    (atk : List (String × String)) (policies : List PolicyInput)
    (hne : ¬ atk.isEmpty) :
    planGroupBatches targetID atk policies =
      ((keyGroupsOf atk).flatMap Prod.snd).map (fun kv =>
        policies.map (fun p => ⟨⟨"groups/" ++ targetID, [kv]⟩, p⟩)) := by
  simp only [planGroupBatches, hne, Bool.false_eq_true, if_false, List.map_flatMap]

/-- C2: for a Group target with no additional target keys, the dispatch loop
issues exactly one batch-modify call per policy, each carrying exactly one
request, and the requests across all calls are exactly the N assignments in
input order. -/
theorem groupPlanNoKeysOneCallPerPolicy (targetID : String)
    (policies : List PolicyInput) :
    (planGroupBatches targetID [] policies).length = policies.length ∧
    (∀ b ∈ planGroupBatches targetID [] policies, b.length = 1) ∧
    ((planGroupBatches targetID [] policies).flatMap
        (fun b => b.map ModifyRequest.policy)) = policies := by
  refine ⟨by simp [planGroupBatches], ?_, ?_⟩
  · intro b hb
    simp only [planGroupBatches, List.isEmpty_nil, if_true] at hb
    obtain ⟨p, _, rfl⟩ := List.mem_map.mp hb
    rfl
  · simp only [planGroupBatches, List.isEmpty_nil, if_true, List.flatMap_map]
    simp

/-- C1 counterexample: with the duplicated binding list
`[(app_id, chrome:aaa), (app_id, chrome:aaa)]` (K = 1 distinct
`(keyName, value)` pair) and one assignment, the group dispatch loop issues
2 batch-modify calls, not K = 1: the code iterates the binding occurrences,
not the distinct pairs. -/
theorem groupPlanDuplicatePairCounterexample :
    (planGroupBatches "g1"
        [("app_id", "chrome:aaa"), ("app_id", "chrome:aaa")]
        [⟨"chrome.users.apps.InstallType", [("appInstallType", .strV "BLOCKED")]⟩]).length = 2 ∧
    [("app_id", "chrome:aaa"), ("app_id", "chrome:aaa")].dedup.length = 1 := by
  exact ⟨rfl, by decide⟩

/-- C1 (amended): for a Group target with additional target keys, the dispatch
loop issues one batch-modify call per *binding occurrence* (bindings grouped
by key name), each call carrying all N assignments in input order and
targeted at that binding's single `(keyName, value)` pair, and every supplied
binding gets such a call; hence when the supplied bindings are pairwise
distinct, this is exactly K calls for K distinct `(keyName, value)` pairs. -/
theorem groupPlanWithKeysOneCallPerBinding (targetID : String)
    (atk : List (String × String)) (policies : List PolicyInput)
    (hne : atk ≠ []) (hnd : atk.Nodup) :
    (planGroupBatches targetID atk policies).length = atk.dedup.length ∧
    (∀ b ∈ planGroupBatches targetID atk policies,
        b.map ModifyRequest.policy = policies ∧
        ∃ kv ∈ atk, ∀ r ∈ b,
          r.policyTargetKey = ⟨"groups/" ++ targetID, [kv]⟩) ∧
    (∀ kv ∈ atk,
        (policies.map (fun p =>
          (⟨⟨"groups/" ++ targetID, [kv]⟩, p⟩ : ModifyRequest))) ∈
          planGroupBatches targetID atk policies) := by
  have hne' : ¬ atk.isEmpty := by simpa [List.isEmpty_iff] using hne
  have heq := planGroupBatches_withKeys_eq targetID atk policies hne'
  have hperm := flatMap_snd_keyGroupsOf atk
  refine ⟨?_, ?_, ?_⟩
  · rw [heq, List.length_map, hperm.length_eq, List.dedup_eq_self.mpr hnd]
  · intro b hb
    rw [heq] at hb
    obtain ⟨kv, hkv, rfl⟩ := List.mem_map.mp hb
    refine ⟨by rw [List.map_map]; exact List.map_id policies, kv,
      hperm.mem_iff.mp hkv, ?_⟩
    intro r hr
    obtain ⟨p, _, rfl⟩ := List.mem_map.mp hr
    rfl
  · intro kv hkv
    rw [heq]
    exact List.mem_map.mpr ⟨kv, hperm.mem_iff.mpr hkv, rfl⟩

/-- Witness for C1's amended theorem at the spec's scenario B: two distinct
`app_id` bindings and two policies yield exactly 2 calls, each carrying both
policies for its app id. -/
theorem groupPlanWithKeysOneCallPerBinding_witness :
    (planGroupBatches "g1"
        [("app_id", "chrome:aaa"), ("app_id", "chrome:bbb")]
        [⟨"chrome.users.apps.InstallType", [("appInstallType", .strV "FORCED")]⟩,
         ⟨"chrome.users.apps.PinningPolicy", [("pinningPolicy", .strV "PINNED")]⟩]).length =
      [("app_id", "chrome:aaa"), ("app_id", "chrome:bbb")].dedup.length ∧
    (∀ b ∈ planGroupBatches "g1"
        [("app_id", "chrome:aaa"), ("app_id", "chrome:bbb")]
        [⟨"chrome.users.apps.InstallType", [("appInstallType", .strV "FORCED")]⟩,
         ⟨"chrome.users.apps.PinningPolicy", [("pinningPolicy", .strV "PINNED")]⟩],
        b.map ModifyRequest.policy =
          [⟨"chrome.users.apps.InstallType", [("appInstallType", .strV "FORCED")]⟩,
           ⟨"chrome.users.apps.PinningPolicy", [("pinningPolicy", .strV "PINNED")]⟩] ∧
        ∃ kv ∈ [("app_id", "chrome:aaa"), ("app_id", "chrome:bbb")], ∀ r ∈ b,
          r.policyTargetKey = ⟨"groups/" ++ "g1", [kv]⟩) ∧
    (∀ kv ∈ [("app_id", "chrome:aaa"), ("app_id", "chrome:bbb")],
        ([⟨"chrome.users.apps.InstallType", [("appInstallType", .strV "FORCED")]⟩,
          ⟨"chrome.users.apps.PinningPolicy", [("pinningPolicy", .strV "PINNED")]⟩].map
            (fun p => (⟨⟨"groups/" ++ "g1", [kv]⟩, p⟩ : ModifyRequest))) ∈
          planGroupBatches "g1"
            [("app_id", "chrome:aaa"), ("app_id", "chrome:bbb")]
            [⟨"chrome.users.apps.InstallType", [("appInstallType", .strV "FORCED")]⟩,
             ⟨"chrome.users.apps.PinningPolicy", [("pinningPolicy", .strV "PINNED")]⟩]) :=
  groupPlanWithKeysOneCallPerBinding "g1"
    [("app_id", "chrome:aaa"), ("app_id", "chrome:bbb")]
    [⟨"chrome.users.apps.InstallType", [("appInstallType", .strV "FORCED")]⟩,
     ⟨"chrome.users.apps.PinningPolicy", [("pinningPolicy", .strV "PINNED")]⟩]
    (by decide) (by decide)

theorem validateChromePolicies_events_schemaGet
    (env : String → Option PolicySchemaDef) (atk : List (String × String))
    (policies : List PolicyInput) :
    ∀ e ∈ (validateChromePolicies env atk policies).1, e.isMutation = false := by
  induction policies with
  | nil => simp [validateChromePolicies]
  | cons p rest ih =>
      intro e he
      rcases henv : env p.schemaName with _ | sd
      · simp only [validateChromePolicies, henv, List.mem_singleton] at he
        subst he
        rfl
      · rcases hf : validatePolicyFields p.schemaName
            (buildSchemaFieldMap sd.messageType) p.schemaValues with _ | e1
        · rcases ha : validateAdditionalTargetKeys p.schemaName atk sd with _ | e2
          · simp only [validateChromePolicies, henv, hf, ha] at he
            rcases List.mem_cons.mp he with rfl | he'
            · rfl
            · exact ih e he'
          · simp only [validateChromePolicies, henv, hf, ha,
              List.mem_singleton] at he
            subst he
            rfl
        · simp only [validateChromePolicies, henv, hf, List.mem_singleton] at he
          subst he
          rfl

/-- C7 (amended): when validation fails, both create operations stop before
dispatching anything: the whole event trace of the aborted run consists of
(read-only) schema fetches, and no mutating batch call appears in it — so no
partial application of policy writes can occur for invalid input.  (The
stronger spec sentence "detected before any network call" is refuted by the
counterexample below: the schema fetches themselves are network calls that
precede the error.) -/
theorem validationFailureBlocksAllMutations
    (env : String → Option PolicySchemaDef) (orgUnitId groupId : String)
    (atk : List (String × String)) (policies : List PolicyInput) (e : ValErr)
    (hfail : (validateChromePolicies env atk policies).2 = some e) :
    ((resourceChromePolicyCreate env orgUnitId atk policies).1.filter
        Event.isMutation = [] ∧
      (resourceChromePolicyCreate env orgUnitId atk policies).2 = false) ∧
    ((resourceChromeGroupPolicyCreate env groupId atk policies).1.filter
        Event.isMutation = [] ∧
      (resourceChromeGroupPolicyCreate env groupId atk policies).2 = false) := by
  have hnomut : (validateChromePolicies env atk policies).1.filter
      Event.isMutation = [] := by
    rw [List.filter_eq_nil_iff]
    intro e' he'
    simp [validateChromePolicies_events_schemaGet env atk policies e' he']
  rcases hv : validateChromePolicies env atk policies with ⟨tr, err⟩
  rw [hv] at hfail hnomut
  simp only at hfail hnomut
  subst hfail
  constructor <;>
    · constructor
      · simpa [resourceChromePolicyCreate, resourceChromeGroupPolicyCreate, hv]
          using hnomut
      · simp [resourceChromePolicyCreate, resourceChromeGroupPolicyCreate, hv]

/-- C7 counterexample to "validation errors are detected before any network
call" as literally stated: this run fails validation with `UnknownField` and
dispatches no mutating call, yet its trace is non-empty — the schema fetch,
a network call, necessarily precedes the detection of every validation
error. -/
theorem validationErrorAfterNetworkCall :
    resourceChromeGroupPolicyCreate envSimple "g1" [] polUnknownField =
      ([.schemaGet "chrome.users.TestSchema"], false) ∧
    (validateChromePolicies envSimple [] polUnknownField).2 =
      some (.unknownField "badField" "chrome.users.TestSchema") ∧
    (resourceChromeGroupPolicyCreate envSimple "g1" [] polUnknownField).1 ≠ [] := by
  refine ⟨rfl, rfl, ?_⟩
  have h1 : (resourceChromeGroupPolicyCreate envSimple "g1" [] polUnknownField).1 =
      [.schemaGet "chrome.users.TestSchema"] := rfl
  rw [h1]
  simp

/-- Witness for C7's amended theorem at the concrete failing input. -/
theorem validationFailureBlocksAllMutations_witness :
    ((resourceChromePolicyCreate envSimple "ou1" [] polUnknownField).1.filter
        Event.isMutation = [] ∧
      (resourceChromePolicyCreate envSimple "ou1" [] polUnknownField).2 = false) ∧
    ((resourceChromeGroupPolicyCreate envSimple "g1" [] polUnknownField).1.filter
        Event.isMutation = [] ∧
      (resourceChromeGroupPolicyCreate envSimple "g1" [] polUnknownField).2 = false) :=
  validationFailureBlocksAllMutations envSimple "ou1" "g1" [] polUnknownField
    (.unknownField "badField" "chrome.users.TestSchema") rfl

/-- C3: for an OrgUnit target whose input passes validation, the create
operation dispatches exactly one mutating call — a single org-unit
batch-modify — and that single batch carries all N assignments in input
order, regardless of N. -/
theorem orgUnitPlanSingleBatch (env : String → Option PolicySchemaDef)
    (orgUnitId : String) (atk : List (String × String))
    (policies : List PolicyInput)
    (hok : (validateChromePolicies env atk policies).2 = none) :
    (resourceChromePolicyCreate env orgUnitId atk policies).1.filter
        Event.isMutation =
      [.orgUnitBatchModify
        (planOrgUnitBatch (trimIdColon orgUnitId) atk policies)] ∧
    (planOrgUnitBatch (trimIdColon orgUnitId) atk policies).map
        ModifyRequest.policy = policies ∧
    (planOrgUnitBatch (trimIdColon orgUnitId) atk policies).length =
      policies.length := by
  have hnomut : (validateChromePolicies env atk policies).1.filter
      Event.isMutation = [] := by
    rw [List.filter_eq_nil_iff]
    intro e' he'
    simp [validateChromePolicies_events_schemaGet env atk policies e' he']
  rcases hv : validateChromePolicies env atk policies with ⟨tr, err⟩
  rw [hv] at hok hnomut
  simp only at hok hnomut
  subst hok
  refine ⟨?_, ?_, by simp [planOrgUnitBatch]⟩
  · simp [resourceChromePolicyCreate, hv, List.filter_append, hnomut,
      Event.isMutation]
  · rw [planOrgUnitBatch, List.map_map]
    exact List.map_id policies

/-- Witness for C3 at a concrete validated org-unit input (including the
`id:` prefix trimming of the org unit id). -/
theorem orgUnitPlanSingleBatch_witness :
    (resourceChromePolicyCreate envMaxConn "id:ou42" [] polMaxConn).1.filter
        Event.isMutation =
      [.orgUnitBatchModify (planOrgUnitBatch (trimIdColon "id:ou42") [] polMaxConn)] ∧
    (planOrgUnitBatch (trimIdColon "id:ou42") [] polMaxConn).map
        ModifyRequest.policy = polMaxConn ∧
    (planOrgUnitBatch (trimIdColon "id:ou42") [] polMaxConn).length =
      polMaxConn.length :=
  orgUnitPlanSingleBatch envMaxConn "id:ou42" [] polMaxConn rfl

theorem foldl_ccStep_currConsistent (l : List PollObs) (cc : ConsistencyCheck) :
    (l.foldl ccStep cc).currConsistent = trailCount cc.currConsistent l := by
  induction l generalizing cc with
  | nil => rfl
  | cons o rest ih =>
      cases o <;> simp [List.foldl_cons, trailCount, ccStep, handleNewEtag, ih,
        List.foldl_cons]

theorem trailCount_append (c : Nat) (l1 l2 : List PollObs) :
    trailCount c (l1 ++ l2) = trailCount (trailCount c l1) l2 := by
  simp [trailCount, List.foldl_append]

theorem trailCount_replicate_notModified (c k : Nat) :
    trailCount c (List.replicate k .notModified) = c + k := by
  induction k generalizing c with
  | zero => rfl
  | succ n ih =>
      simp only [List.replicate_succ, trailCount, List.foldl_cons]
      have h := ih (c + 1)
      simp only [trailCount] at h
      rw [h]
      omega

theorem exists_split_trailCount (l : List PollObs) :
    ∃ l1, l = l1 ++ List.replicate (trailCount 0 l) .notModified := by
  induction l using List.reverseRecOn with
  | nil => exact ⟨[], rfl⟩
  | append_singleton p o ih =>
      obtain ⟨l1, hl1⟩ := ih
      cases o with
      | notModified =>
          have ht : trailCount 0 (p ++ [PollObs.notModified]) =
              trailCount 0 p + 1 := by
            rw [trailCount_append]
            rfl
          refine ⟨l1, ?_⟩
          rw [ht, List.replicate_succ', ← List.append_assoc, ← hl1]
      | notFound =>
          have ht : trailCount 0 (p ++ [PollObs.notFound]) = 0 := by
            rw [trailCount_append]
            rfl
          refine ⟨p ++ [.notFound], ?_⟩
          rw [ht]
          simp
      | newEtag e =>
          have ht : trailCount 0 (p ++ [PollObs.newEtag e]) = 0 := by
            rw [trailCount_append]
            rfl
          refine ⟨p ++ [.newEtag e], ?_⟩
          rw [ht]
          simp

theorem runPoll_converged_iff (req : Nat) (cc : ConsistencyCheck)
    (obs : List PollObs) :
    runPoll req cc obs = .Converged ↔
      ∃ n, n ≤ obs.length ∧ req ≤ ((obs.take n).foldl ccStep cc).currConsistent := by
  induction obs generalizing cc with
  | nil =>
      by_cases h : reachedConsistency cc req
      · have hr : req ≤ cc.currConsistent := by
          simpa [reachedConsistency] using h
        simp only [runPoll, h, if_true]
        constructor
        · intro _
          exact ⟨0, by simp, by simpa using hr⟩
        · intro _
          trivial
      · have hr : ¬ req ≤ cc.currConsistent := by
          simpa [reachedConsistency] using h
        simp only [runPoll, h, Bool.false_eq_true, if_false]
        constructor
        · intro hco
          exact absurd hco (by decide)
        · rintro ⟨n, hn, hle⟩
          have hn0 : n = 0 := Nat.le_zero.mp (by simpa using hn)
          subst hn0
          simp only [List.take_zero, List.foldl_nil] at hle
          exact absurd hle hr
  | cons o rest ih =>
      by_cases h : reachedConsistency cc req
      · have hr : req ≤ cc.currConsistent := by
          simpa [reachedConsistency] using h
        simp only [runPoll, h, if_true]
        constructor
        · intro _
          exact ⟨0, by simp, by simpa using hr⟩
        · intro _
          trivial
      · have hr : ¬ req ≤ cc.currConsistent := by
          simpa [reachedConsistency] using h
        simp only [runPoll, h, Bool.false_eq_true, if_false]
        rw [ih]
        constructor
        · rintro ⟨n, hn, hle⟩
          refine ⟨n + 1, by simpa using hn, ?_⟩
          simpa [List.take_succ_cons] using hle
        · rintro ⟨n, hn, hle⟩
          cases n with
          | zero =>
              simp only [List.take_zero, List.foldl_nil] at hle
              exact absurd hle hr
          | succ m =>
              refine ⟨m, by simpa using hn, ?_⟩
              simpa [List.take_succ_cons] using hle

theorem runPoll_initial_converged_iff_block (req : Nat) (obs : List PollObs) :
    runPoll req initialCC obs = .Converged ↔
      ∃ l1 l2, obs = l1 ++ List.replicate req .notModified ++ l2 := by
  rw [runPoll_converged_iff]
  constructor
  · rintro ⟨n, hn, hreq⟩
    rw [foldl_ccStep_currConsistent] at hreq
    have h0 : initialCC.currConsistent = 0 := rfl
    rw [h0] at hreq
    obtain ⟨l1, hl1⟩ := exists_split_trailCount (obs.take n)
    set t := trailCount 0 (obs.take n) with ht
    refine ⟨l1 ++ List.replicate (t - req) .notModified, obs.drop n, ?_⟩
    have hrep : List.replicate t PollObs.notModified =
        List.replicate (t - req) PollObs.notModified ++
          List.replicate req PollObs.notModified := by
      rw [← List.replicate_add]
      congr 1
      omega
    calc obs = obs.take n ++ obs.drop n := (List.take_append_drop n obs).symm
      _ = (l1 ++ List.replicate t PollObs.notModified) ++ obs.drop n := by
            rw [← hl1]
      _ = (l1 ++ List.replicate (t - req) PollObs.notModified) ++
            List.replicate req PollObs.notModified ++ obs.drop n := by
            rw [hrep]
            simp [List.append_assoc]
  · rintro ⟨l1, l2, rfl⟩
    refine ⟨l1.length + req, ?_, ?_⟩
    · simp only [List.length_append, List.length_replicate]
      omega
    · have htake : (l1 ++ (List.replicate req PollObs.notModified ++ l2)).take
          (l1.length + req) = l1 ++ List.replicate req PollObs.notModified := by
        rw [List.take_append_eq_append_take]
        rw [List.take_of_length_le (by omega)]
        congr 1
        rw [List.take_append_eq_append_take]
        simp [List.take_replicate]
      rw [List.append_assoc, htake, foldl_ccStep_currConsistent,
        trailCount_append, trailCount_replicate_notModified]
      omega

/-- C8: the consistency poller.  Per tick: a "not modified" response
increments the stable count by one (baseline unchanged); a "not found"
response resets it to 0; a response with a new etag stores the new baseline
and resets the count (in particular it is not counted as stable evidence).
The whole wait converges iff the observations available before the deadline
contain `required` consecutive "not modified" ticks (necessarily following
the last etag change or not-found, since those reset the count), and times
out otherwise. -/
theorem consistencyPollerSpec :
    (∀ cc : ConsistencyCheck,
        ccStep cc .notModified = ⟨cc.lastEtag, cc.currConsistent + 1⟩) ∧
    (∀ cc : ConsistencyCheck, ccStep cc .notFound = ⟨cc.lastEtag, 0⟩) ∧
    (∀ (cc : ConsistencyCheck) (e : String), ccStep cc (.newEtag e) = ⟨e, 0⟩) ∧
    (∀ (required : Nat) (obs : List PollObs),
        runPoll required initialCC obs = .Converged ↔
          ∃ l1 l2, obs = l1 ++ List.replicate required .notModified ++ l2) ∧
    (∀ (required : Nat) (obs : List PollObs),
        runPoll required initialCC obs = .TimedOut ↔
          ¬ ∃ l1 l2, obs = l1 ++ List.replicate required .notModified ++ l2) := by
  refine ⟨fun cc => rfl, fun cc => rfl, fun cc e => rfl,
    runPoll_initial_converged_iff_block, fun required obs => ?_⟩
  rw [← runPoll_initial_converged_iff_block]
  cases h : runPoll required initialCC obs <;> simp [h]


/-- Witness for C2 at the spec's scenario C: two policies, no additional
keys, hence two calls of one request each. -/
theorem groupPlanNoKeysOneCallPerPolicy_witness :
    (planGroupBatches "g1" []
        [⟨"chrome.users.apps.InstallType", [("appInstallType", .strV "FORCED")]⟩,
         ⟨"chrome.users.apps.PinningPolicy", [("pinningPolicy", .strV "PINNED")]⟩]).length = 2 ∧
    (∀ b ∈ planGroupBatches "g1" []
        [⟨"chrome.users.apps.InstallType", [("appInstallType", .strV "FORCED")]⟩,
         ⟨"chrome.users.apps.PinningPolicy", [("pinningPolicy", .strV "PINNED")]⟩],
        b.length = 1) ∧
    ((planGroupBatches "g1" []
        [⟨"chrome.users.apps.InstallType", [("appInstallType", .strV "FORCED")]⟩,
         ⟨"chrome.users.apps.PinningPolicy", [("pinningPolicy", .strV "PINNED")]⟩]).flatMap
        (fun b => b.map ModifyRequest.policy)) =
      [⟨"chrome.users.apps.InstallType", [("appInstallType", .strV "FORCED")]⟩,
       ⟨"chrome.users.apps.PinningPolicy", [("pinningPolicy", .strV "PINNED")]⟩] :=
  groupPlanNoKeysOneCallPerPolicy "g1"
    [⟨"chrome.users.apps.InstallType", [("appInstallType", .strV "FORCED")]⟩,
     ⟨"chrome.users.apps.PinningPolicy", [("pinningPolicy", .strV "PINNED")]⟩]
